import Mathlib

/-!
Verification development for the caesar web client's streaming chat engine.

The definitions below are a shallow embedding of the TypeScript sources:
`src/ChatView.tsx` (stream reducer and turn orchestration), `src/MessageList.tsx`
(tool-execution correlator and notification extractor), `src/toolResultEvents.ts`
(side-channel payload decoding) and the task-progress parser.  Loosely typed
wire payloads (`Record<string, unknown>`) are embedded as the `MetaVal` JSON-like
value type.  Timestamps produced by `new Date().toISOString()` are threaded as
explicit string parameters.
-/

namespace Caesar

/-- JSON-like dynamic value, embedding TypeScript `unknown` metadata payloads. -/
inductive MetaVal where
  | str (s : String)
  | boolean (b : Bool)
  | num (n : Int)
  | arr (elems : List MetaVal)
  | obj (fields : List (String × MetaVal))
  | null

/-- Message role, from the `role` union type in `api.ts`. -/
inductive Role where
  | user
  | assistant
  | tool
deriving DecidableEq, Repr

/-- ToolCall from `api.ts`: id (correlation key), name, structured input. -/
structure ToolCall where
  id : String
  name : String
  input : List (String × MetaVal)

/-- ToolResult from `api.ts`, with the optional `metadata` side-channel object. -/
structure ToolResult where
  tool_call_id : String
  content : String
  is_error : Bool
  metadata : Option MetaVal := none

/-- Message from `api.ts`: role, content, optional tool calls/results, timestamp,
optional metadata (read by `isCompactionMessage`). -/
structure Message where
  role : Role
  content : String
  tool_calls : List ToolCall := []
  tool_results : List ToolResult := []
  timestamp : String
  metadata : Option MetaVal := none

/-- Session fields used by `ChatView.tsx` (id drives the stale-tag comparison;
status is the only field the stream reducer writes). -/
structure Session where
  id : String
  title : String
  status : String
  provider : Option String := none
  model : Option String := none

/-- Stream events decoded from one live chat response, as declared in the wire
interface of the spec and consumed by `handleStreamEvent` in `ChatView.tsx`. -/
inductive ChatStreamEvent where
  | assistant_delta (delta : String)
  | status (status : String)
  | done (messages : List Message) (status : String)
  | error (error : String) (status : Option String)

/-- Observable ChatView state touched by the streaming turn: the `session`,
`messages` and `error` React state cells (UI-only flags such as `isLoading`
are omitted because no event logic reads them). -/
structure ChatState where
  session : Option Session
  messages : List Message
  error : Option String

/-- Embedding of JavaScript `String.prototype.trim()`: strip whitespace from
both ends (written over the character list so it evaluates inside proofs). -/
def trimString (s : String) : String :=
  String.mk (((s.data.dropWhile Char.isWhitespace).reverse.dropWhile Char.isWhitespace).reverse)

/-- Embedding of JavaScript `String.prototype.toLowerCase()` (written over the
character list so it evaluates inside proofs). -/
def lowerString (s : String) : String :=
  String.mk (s.data.map Char.toLower)

/-- Embedding of `setSession(prev => prev && prev.id === targetSessionId ?
\x7b ...prev, status \x7d : prev)` from `ChatView.tsx`. -/
def updateSessionStatus (so : Option Session) (targetSessionId status : String) : Option Session :=
  match so with
  | none => none
  | some s => if s.id = targetSessionId then some { s with status := status } else some s

/-- Embedding of the `setMessages` updater in the `assistant_delta` branch of
`handleStreamEvent`: no-op on an empty list; push a fresh assistant message when
the last message is not an assistant one; otherwise append to its content. -/
def applyDeltaMessages (now delta : String) (msgs : List Message) : List Message :=
  match msgs.getLast? with
  | none => msgs
  | some last =>
    if last.role ≠ Role.assistant then
      msgs ++ [{ role := Role.assistant, content := delta, timestamp := now }]
    else
      msgs.dropLast ++ [{ last with content := last.content ++ delta }]

/-- Embedding of `handleStreamEvent(event, targetSessionId)` from `ChatView.tsx`.
`now` stands for `new Date().toISOString()` at the processing instant. -/
def handleStreamEvent (now targetSessionId : String) (event : ChatStreamEvent) (st : ChatState) : ChatState :=
  match event with
  | ChatStreamEvent.assistant_delta delta =>
    if delta = "" then st
    else { st with messages := applyDeltaMessages now delta st.messages }
  | ChatStreamEvent.status s =>
    { st with session := updateSessionStatus st.session targetSessionId s }
  | ChatStreamEvent.done msgs s =>
    { st with messages := msgs, session := updateSessionStatus st.session targetSessionId s }
  | ChatStreamEvent.error e so =>
    let st1 := { st with error := some (if e = "" then "Failed to send message" else e) }
    match so with
    | some s =>
      if trimString s ≠ "" then { st1 with session := updateSessionStatus st1.session targetSessionId s }
      else st1
    | none => st1

/-- Folding the decoded events of one stream through `handleStreamEvent`,
in arrival order. -/
def foldEvents (now targetSessionId : String) (events : List ChatStreamEvent) (st : ChatState) : ChatState :=
  events.foldl (fun s e => handleStreamEvent now targetSessionId e s) st

/-- Optimistic user message appended by `sendMessageWithStreaming`. -/
def optimisticUser (nowU message : String) : Message :=
  { role := Role.user, content := message, timestamp := nowU }

/-- Empty assistant placeholder appended by `sendMessageWithStreaming`. -/
def optimisticAssistant (nowA : String) : Message :=
  { role := Role.assistant, content := "", timestamp := nowA }

/-- State after the synchronous prefix of `sendMessageWithStreaming`: both
placeholders appended and the error banner cleared. -/
def optimisticState (nowU nowA message : String) (st : ChatState) : ChatState :=
  { st with
    messages := st.messages ++ [optimisticUser nowU message, optimisticAssistant nowA],
    error := none }

/-- Outcome of iterating `sendMessageStream`: either the stream completed, or it
threw after yielding a prefix of events (a transport failure surfaced as
`errMsg`, the string the catch block derives from the thrown value). -/
inductive StreamOutcome where
  | ok (events : List ChatStreamEvent)
  | failed (events : List ChatStreamEvent) (errMsg : String)

/-- Embedding of `sendMessageWithStreaming` from `ChatView.tsx`: append the two
optimistic placeholders, fold every yielded event, and on a thrown transport
failure set the error and drop the last two messages (`prev.slice(0, -2)`). -/
def sendMessageWithStreaming (nowU nowA now targetSessionId message : String)
    (outcome : StreamOutcome) (st : ChatState) : ChatState :=
  let st1 := optimisticState nowU nowA message st
  match outcome with
  | StreamOutcome.ok events => foldEvents now targetSessionId events st1
  | StreamOutcome.failed events errMsg =>
    let st2 := foldEvents now targetSessionId events st1
    { st2 with error := some errMsg, messages := st2.messages.dropLast.dropLast }

/-- In-order concatenation of a list of delta fragments. -/
def concatDeltas : List String → String
  | [] => ""
  | d :: ds => d ++ concatDeltas ds

/-! Side-channel payload decoding, from `src/toolResultEvents.ts`. -/

/-- Embedding of `asRecord`: an object value yields its fields, anything else
(absent metadata, arrays, primitives) yields the empty record. -/
def asRecord (v : Option MetaVal) : List (String × MetaVal) :=
  match v with
  | some (MetaVal.obj fields) => fields
  | _ => []

/-- Property access on a decoded record (JS object keys are unique, so the
first binding wins). -/
def getField (fields : List (String × MetaVal)) (key : String) : Option MetaVal :=
  fields.lookup key

/-- Embedding of `asString`: a string value is trimmed, anything else is `""`. -/
def asString (v : Option MetaVal) : String :=
  match v with
  | some (MetaVal.str s) => trimString s
  | _ => ""

/-- Embedding of `asBool`: a boolean value is kept, anything else falls back. -/
def asBool (v : Option MetaVal) (fallback : Bool) : Bool :=
  match v with
  | some (MetaVal.boolean b) => b
  | _ => fallback

/-- Decoded `webapp_notification` payload (`WebAppNotificationPayload`), with
the level kept as the validated string from the source's union type. -/
structure WebAppNotificationPayload where
  title : String
  message : String
  level : String
  audioClipId : String
  imagePath : String
  imageUrl : String
  autoPlayAudio : Bool

/-- Embedding of `readWebAppNotification`: requires a non-empty trimmed
`message`; the level defaults to `"info"` unless it is one of the four known
levels; `auto_play_audio` defaults to `true`. -/
def readWebAppNotification (r : ToolResult) : Option WebAppNotificationPayload :=
  let metadata := asRecord r.metadata
  let payload := asRecord (getField metadata "webapp_notification")
  let message := asString (getField payload "message")
  if message = "" then none
  else
    let levelRaw := lowerString (asString (getField payload "level"))
    let level := if levelRaw ∈ ["info", "success", "warning", "error"] then levelRaw else "info"
    some
      { title := asString (getField payload "title")
        message := message
        level := level
        audioClipId := asString (getField payload "audio_clip_id")
        imagePath := asString (getField payload "image_path")
        imageUrl := asString (getField payload "image_url")
        autoPlayAudio := asBool (getField payload "auto_play_audio") true }

/-- Embedding of `readImagePreviewEvent`: an `image_file.path` metadata entry
wins, otherwise a notification payload carrying an image reference. -/
def readImagePreviewEvent (r : ToolResult) : Option (String × String) :=
  let metadata := asRecord r.metadata
  let imagePath := asString (getField (asRecord (getField metadata "image_file")) "path")
  if imagePath ≠ "" then some (imagePath, "")
  else
    match readWebAppNotification r with
    | none => none
    | some n => if n.imagePath = "" ∧ n.imageUrl = "" then none else some (n.imagePath, n.imageUrl)

/-! Tool execution correlator, from `renderedMessages` in `src/MessageList.tsx`. -/

/-- Embedding of `isCompactionMessage`: reads `metadata.context_compaction`,
accepting a boolean or the trimmed case-insensitive string `"true"`. -/
def isCompactionMessage (m : Message) : Bool :=
  match getField (asRecord m.metadata) "context_compaction" with
  | some (MetaVal.boolean b) => b
  | some (MetaVal.str s) => lowerString (trimString s) = "true"
  | _ => false

/-- Render node derived from the message list; carries exactly the data the
corresponding JSX card is built from. -/
inductive RenderNode where
  | toolExec (call : ToolCall) (result : Option ToolResult) (timestamp : String)
  | standaloneResult (result : ToolResult) (timestamp : String)
  | genericTool (m : Message) (compaction : Bool)
  | plain (m : Message) (compaction : Bool)

/-- Embedding of `new Map(mergedResults.map(r => [r.tool_call_id, r]))` followed
by `.get(callID)`: the last result with a matching id wins. -/
def resultByCallID (results : List ToolResult) (callID : String) : Option ToolResult :=
  results.foldl (fun acc r => if r.tool_call_id = callID then some r else acc) none

/-- One execution card per tool call, paired with the result matched by
`tool_call_id` (or `none`, rendered as "Waiting for result..."). -/
def execCards (calls : List ToolCall) (merged : List ToolResult) (timestamp : String) : List RenderNode :=
  calls.map (fun c => RenderNode.toolExec c (resultByCallID merged c.id) timestamp)

/-- Nodes produced for one message processed without a lookahead merge: the
tool-message branches (standalone result cards, the generic text node, or
nothing for a blank result-less tool message) and the plain-message branch of
the `renderedMessages` loop. -/
def soloNodes (m : Message) : List RenderNode :=
  if m.role = Role.tool then
    if m.tool_results.length > 0 then
      m.tool_results.map (fun r => RenderNode.standaloneResult r m.timestamp)
    else if trimString m.content ≠ "" then
      [RenderNode.genericTool m (isCompactionMessage m)]
    else []
  else [RenderNode.plain m (isCompactionMessage m)]

/-- Embedding of the `renderedMessages` loop: an assistant message with tool
calls looks ahead exactly one message, merging and consuming an immediately
following tool message with results; an unconsumed tool message renders its
results standalone, or a generic node when it only has non-blank text. -/
def renderedMessages : List Message → List RenderNode
  | [] => []
  | [m] =>
    if m.role = Role.assistant ∧ m.tool_calls.length > 0 then
      execCards m.tool_calls m.tool_results m.timestamp
    else soloNodes m
  | m :: next :: rest2 =>
    if m.role = Role.assistant ∧ m.tool_calls.length > 0 then
      if next.role = Role.tool ∧ next.tool_results.length > 0 then
        execCards m.tool_calls (m.tool_results ++ next.tool_results) next.timestamp
          ++ renderedMessages rest2
      else
        execCards m.tool_calls m.tool_results m.timestamp ++ renderedMessages (next :: rest2)
    else soloNodes m ++ renderedMessages (next :: rest2)

/-! Side-channel notification extractor, from the two `useEffect` passes of
`src/MessageList.tsx` (hydration and live observation). -/

/-- Notification identity, embedding the template string
computed in `MessageList.tsx` from the message timestamp and the result's
`tool_call_id`. -/
def notificationID (m : Message) (r : ToolResult) : String :=
  m.timestamp ++ ":" ++ r.tool_call_id

/-- Modelled from the spec: `buildImageAssetUrl` lives in the portion of
`api.ts` absent from the sources; it derives the backend asset URL for an
image path. Its exact URL shape is irrelevant to every claim below. -/
def buildImageAssetUrl (path : String) : String :=
  "/assets/image?path=" ++ path

/-- NotificationEvent as emitted through `emitWebAppNotification`
(`WebAppNotificationEventDetail` in `webappNotifications.ts`). -/
structure NotificationEvent where
  id : String
  title : String
  message : String
  level : String
  createdAt : String
  sessionId : String
  imageUrl : String
  audioClipId : String
  autoPlayAudio : Bool

/-- Event payload built at the emission site in `MessageList.tsx`: the title
falls back to "Agent notification", a null session id becomes `""`, and the
image URL prefers the payload URL over a derived asset URL. -/
def mkNotificationEvent (sessionId : Option String) (m : Message) (r : ToolResult)
    (p : WebAppNotificationPayload) : NotificationEvent :=
  { id := notificationID m r
    title := if p.title = "" then "Agent notification" else p.title
    message := p.message
    level := p.level
    createdAt := m.timestamp
    sessionId := match sessionId with | some s => s | none => ""
    imageUrl :=
      if p.imageUrl ≠ "" then p.imageUrl
      else if p.imagePath ≠ "" then buildImageAssetUrl p.imagePath else ""
    audioClipId := p.audioClipId
    autoPlayAudio := p.autoPlayAudio }

/-- Insertion into the "seen" identity set (a JS `Set` of id strings, embedded
as a duplicate-free insertion into a list). -/
def addSeen (seen : List String) (idStr : String) : List String :=
  if idStr ∈ seen then seen else seen ++ [idStr]

/-- Hydration handling of one tool result: error results and results without a
notification payload are skipped; otherwise the identity is registered. -/
def hydrateResultStep (m : Message) (seen : List String) (r : ToolResult) : List String :=
  if r.is_error then seen
  else
    match readWebAppNotification r with
    | none => seen
    | some _ => addSeen seen (notificationID m r)

/-- Hydration inner loop over one message's tool results. -/
def hydrateResults (m : Message) : List ToolResult → List String → List String
  | [], seen => seen
  | r :: rs, seen => hydrateResults m rs (hydrateResultStep m seen r)

/-- Hydration pass: registers every payload identity, emitting nothing. -/
def hydratePass : List Message → List String → List String
  | [], seen => seen
  | m :: ms, seen => hydratePass ms (hydrateResults m m.tool_results seen)

/-- Live handling of one tool result: an unseen payload identity is added to
the seen set and exactly one NotificationEvent is appended; anything else is
a no-op. -/
def liveResultStep (sessionId : Option String) (m : Message)
    (acc : List String × List NotificationEvent) (r : ToolResult) :
    List String × List NotificationEvent :=
  if r.is_error then acc
  else
    match readWebAppNotification r with
    | none => acc
    | some p =>
      let idStr := notificationID m r
      if idStr ∈ acc.1 then acc
      else (acc.1 ++ [idStr], acc.2 ++ [mkNotificationEvent sessionId m r p])

/-- Live inner loop over one message's tool results. -/
def liveResults (sessionId : Option String) (m : Message) :
    List ToolResult → List String × List NotificationEvent → List String × List NotificationEvent
  | [], acc => acc
  | r :: rs, acc => liveResults sessionId m rs (liveResultStep sessionId m acc r)

/-- Live outer loop over the observed message list. -/
def livePassAux (sessionId : Option String) :
    List Message → List String × List NotificationEvent → List String × List NotificationEvent
  | [], acc => acc
  | m :: ms, acc => livePassAux sessionId ms (liveResults sessionId m m.tool_results acc)

/-- Live observation pass: starting from the given seen set, returns the
updated seen set and the emitted events in order. -/
def livePass (sessionId : Option String) (messages : List Message) (seen : List String) :
    List String × List NotificationEvent :=
  livePassAux sessionId messages (seen, [])

/-- Message list with every `is_error` tool result removed, used to state that
error results never contribute to notification extraction. -/
def stripErrorResults (messages : List Message) : List Message :=
  messages.map (fun m => { m with tool_results := m.tool_results.filter (fun r => !r.is_error) })

/-! Task progress parser.  `parseTaskProgressDetails` is imported by
`TaskProgressPanel.tsx` from the portion of `api.ts` absent from the sources,
so the definitions below are modelled from the spec. -/

/-- TaskItem from the spec's data model: id, text, completed flag, ordered
children. -/
structure TaskItem where
  id : String
  text : String
  completed : Bool
  children : List TaskItem

/-- Parse result shape consumed by `TaskProgressPanel.tsx`. -/
structure TaskProgressDetails where
  tasks : List TaskItem
  completed : Nat
  total : Nat
  progressPct : Nat

/-- Modelled from the spec: recognize one checkbox line `"- [c] text"` with
leading-space indentation, where the marker `c` is `' '` (open) or a
case-insensitive `x` (completed); any other line is silently skipped. -/
def parseTaskChars : Nat → List Char → Option (Nat × Bool × String)
  | indent, ' ' :: rest => parseTaskChars (indent + 1) rest
  | indent, '-' :: ' ' :: '[' :: c :: ']' :: ' ' :: textChars =>
    if c = 'x' ∨ c = 'X' then some (indent, true, String.mk textChars)
    else if c = ' ' then some (indent, false, String.mk textChars)
    else none
  | _, _ => none

/-- Open parser frame: an item whose children are still being collected. -/
structure TaskFrame where
  indent : Nat
  taskId : String
  text : String
  completed : Bool
  children : List TaskItem

/-- Closing a frame yields the finished TaskItem. -/
def closeTask (f : TaskFrame) : TaskItem :=
  ⟨f.taskId, f.text, f.completed, f.children⟩

/-- Modelled from the spec: starting from the topmost frame `f`, pop every
frame at least as deep as the incoming indentation, attaching each closed
frame as the last child of the frame below it, or as a root when the stack
empties. -/
def popInto (i : Nat) (f : TaskFrame) : List TaskFrame → List TaskItem → List TaskFrame × List TaskItem
  | fs, roots =>
    if i ≤ f.indent then
      match fs with
      | [] => ([], roots ++ [closeTask f])
      | g :: gs => popInto i { g with children := g.children ++ [closeTask f] } gs roots
    else (f :: fs, roots)

/-- Modelled from the spec: pop every open frame at least as deep as the
incoming indentation. -/
def popFrames (i : Nat) (stack : List TaskFrame) (roots : List TaskItem) :
    List TaskFrame × List TaskItem :=
  match stack with
  | [] => ([], roots)
  | f :: fs => popInto i f fs roots

/-- Modelled from the spec: line splitting on `'\n'` characters. -/
def splitLines : List Char → List (List Char)
  | [] => [[]]
  | '\n' :: rest => [] :: splitLines rest
  | c :: rest =>
    match splitLines rest with
    | l :: ls => (c :: l) :: ls
    | [] => [[c]]

/-- Parser accumulator: open-frame stack, finished roots, items parsed so far
(also the id counter), completed items so far. -/
structure TaskParseAcc where
  stack : List TaskFrame
  roots : List TaskItem
  total : Nat
  completed : Nat

/-- Modelled from the spec: process one line — skip it unless it parses as a
checkbox item, otherwise close deeper frames and open a frame for the item. -/
def processTaskLine (acc : TaskParseAcc) (line : List Char) : TaskParseAcc :=
  match parseTaskChars 0 line with
  | none => acc
  | some (indent, completed, text) =>
    let (stack1, roots1) := popFrames indent acc.stack acc.roots
    { stack := ⟨indent, "task-" ++ toString acc.total, text, completed, []⟩ :: stack1
      roots := roots1
      total := acc.total + 1
      completed := acc.completed + (if completed then 1 else 0) }

/-- Modelled from the spec: `parseTaskProgressDetails` — the line-by-line
indentation-stack parse of §4.5, with the rounded completion percentage
(`Math.round(completed / total * 100)`, zero when no item parsed). -/
def parseTaskProgressDetails (text : String) : TaskProgressDetails :=
  let acc := (splitLines text.data).foldl processTaskLine ⟨[], [], 0, 0⟩
  let (_, tasks) := popFrames 0 acc.stack acc.roots
  let pct := if acc.total = 0 then 0 else (acc.completed * 100 * 2 + acc.total) / (acc.total * 2)
  ⟨tasks, acc.completed, acc.total, pct⟩

/-! Theorems. -/

/-- C10: `parseTaskProgressDetails` applied to `"- [ ] a\n  - [x] b\n- [x] c"`
returns total 3, completed 2, progressPct 67, and a task tree in which item
`a` has exactly one child `b` and `c` is a second root. -/
theorem parseTaskProgressDetails_example :
    parseTaskProgressDetails "- [ ] a\n  - [x] b\n- [x] c" =
      ⟨[⟨"task-0", "a", false, [⟨"task-1", "b", true, []⟩]⟩, ⟨"task-2", "c", true, []⟩],
        2, 3, 67⟩ :=
  rfl

/-- Updating a session's status twice with the same target and status is the
same as updating it once. -/
theorem updateSessionStatus_idem (so : Option Session) (target s : String) :
    updateSessionStatus (updateSessionStatus so target s) target s =
      updateSessionStatus so target s := by
  cases so with
  | none => rfl
  | some sess =>
    by_cases h : sess.id = target
    · simp [updateSessionStatus, h]
    · simp [updateSessionStatus, h]

/-- C5: folding a `done` event replaces the message list with exactly the
event's authoritative list, and re-applying the identical `done` event is
idempotent on the whole observable state. -/
theorem doneReplacesAndIdempotent (now target : String) (m : List Message) (s : String)
    (st : ChatState) :
    (handleStreamEvent now target (ChatStreamEvent.done m s) st).messages = m ∧
    handleStreamEvent now target (ChatStreamEvent.done m s)
        (handleStreamEvent now target (ChatStreamEvent.done m s) st) =
      handleStreamEvent now target (ChatStreamEvent.done m s) st := by
  refine ⟨rfl, ?_⟩
  simp [handleStreamEvent, updateSessionStatus_idem]

/-- Transcript fixture: the one-message list displayed for session "S2". -/
def cexMessage : Message :=
  { role := Role.user, content := "hello", timestamp := "t0" }

/-- Session fixture standing for the newly displayed session "S2". -/
def cexSessionS2 : Session :=
  { id := "S2", title := "Second", status := "idle" }

/-- Displayed state fixture after the switch to session "S2". -/
def cexStateS2 : ChatState :=
  { session := some cexSessionS2, messages := [cexMessage], error := none }

/-- C1 counterexample: a `done` event tagged for session "S1", processed while
the displayed session is "S2" (whose transcript holds one message), replaces
the displayed transcript — the message list is mutated, so events tagged for a
no-longer-displayed session do not leave the transcript unchanged. -/
theorem staleDoneMutatesForeignTranscript_cex :
    cexStateS2.session = some cexSessionS2 ∧ cexSessionS2.id ≠ "S1" ∧
    (handleStreamEvent "t1" "S1" (ChatStreamEvent.done [] "completed") cexStateS2).messages ≠
      cexStateS2.messages := by
  refine ⟨rfl, by decide, ?_⟩
  intro h
  have h' : ([] : List Message) = [cexMessage] := h
  exact List.noConfusion h'

/-- C1 amended: after the displayed session has moved to `S2 ≠ S1`, an event
tagged `S1` never mutates `S2`'s session status (the tag guard protects the
status), and `status` and `error` events also leave the transcript unchanged;
`assistant_delta` and `done` events, however, are applied to the displayed
message list regardless of the tag. -/
theorem staleEventSessionGuard (now target : String) (ev : ChatStreamEvent) (st : ChatState)
    (s : Session) (hs : st.session = some s) (hne : s.id ≠ target) :
    (handleStreamEvent now target ev st).session = st.session ∧
    ((∃ x, ev = ChatStreamEvent.status x) ∨ (∃ e so, ev = ChatStreamEvent.error e so) →
      (handleStreamEvent now target ev st).messages = st.messages) := by
  constructor
  · cases ev with
    | assistant_delta d => by_cases hd : d = "" <;> simp [handleStreamEvent, hd]
    | status x => simp [handleStreamEvent, updateSessionStatus, hs, hne]
    | done m x => simp [handleStreamEvent, updateSessionStatus, hs, hne]
    | error e so =>
      cases so with
      | none => simp [handleStreamEvent, hs]
      | some x =>
        by_cases hx : trimString x ≠ "" <;>
          simp [handleStreamEvent, hx, updateSessionStatus, hs, hne]
  · rintro (⟨x, rfl⟩ | ⟨e, so, rfl⟩)
    · rfl
    · cases so with
      | none => rfl
      | some x => by_cases hx : trimString x ≠ "" <;> simp [handleStreamEvent, hx]

/-- C1 amended, witness: a concrete `status` event tagged "S1" processed while
"S2" is displayed leaves both the session record and the transcript unchanged. -/
theorem staleEventSessionGuard_witness :
    cexStateS2.session = some cexSessionS2 ∧ cexSessionS2.id ≠ "S1" ∧
    (handleStreamEvent "t1" "S1" (ChatStreamEvent.status "busy") cexStateS2).session =
      cexStateS2.session ∧
    (handleStreamEvent "t1" "S1" (ChatStreamEvent.status "busy") cexStateS2).messages =
      cexStateS2.messages := by
  have h := staleEventSessionGuard "t1" "S1" (ChatStreamEvent.status "busy") cexStateS2
    cexSessionS2 rfl (by decide)
  exact ⟨rfl, by decide, h.1, h.2 (Or.inl ⟨"busy", rfl⟩)⟩

/-- Completely empty pre-turn state. -/
def emptyState : ChatState :=
  { session := none, messages := [], error := none }

/-- C2 counterexample: a non-empty `assistant_delta` folded into the genuinely
empty transcript is dropped — no assistant message is seeded, so the resulting
assistant content (there is none) cannot equal the concatenation `"Hi"`. -/
theorem deltaDroppedOnEmptyTranscript_cex :
    emptyState.messages = [] ∧ ("Hi" : String) ≠ "" ∧
    (handleStreamEvent "t1" "S1" (ChatStreamEvent.assistant_delta "Hi") emptyState).messages =
      [] := by
  exact ⟨rfl, by decide, rfl⟩

/-- Unfolding one event of `foldEvents`. -/
theorem foldEvents_cons (now target : String) (e : ChatStreamEvent)
    (events : List ChatStreamEvent) (st : ChatState) :
    foldEvents now target (e :: events) st =
      foldEvents now target events (handleStreamEvent now target e st) :=
  rfl

/-- Folding a delta sequence into a transcript whose last message is an
assistant message appends the concatenation of the deltas to its content
(empty deltas are no-ops and contribute nothing). -/
theorem foldEvents_deltas_trailing_assistant (now target : String) (ds : List String) :
    ∀ (st : ChatState) (pre : List Message) (lastm : Message),
      st.messages = pre ++ [lastm] → lastm.role = Role.assistant →
      (foldEvents now target (ds.map ChatStreamEvent.assistant_delta) st).messages =
        pre ++ [{ lastm with content := lastm.content ++ concatDeltas ds }] := by
  induction ds with
  | nil =>
    intro st pre lastm hmsgs _
    simp [foldEvents, concatDeltas, hmsgs]
  | cons d ds ih =>
    intro st pre lastm hmsgs hrole
    rw [List.map_cons, foldEvents_cons]
    by_cases hd : d = ""
    · have hstep : handleStreamEvent now target (ChatStreamEvent.assistant_delta d) st = st := by
        simp [handleStreamEvent, hd]
      rw [hstep, ih st pre lastm hmsgs hrole]
      simp [concatDeltas, hd]
    · have hstep : (handleStreamEvent now target (ChatStreamEvent.assistant_delta d) st).messages
          = pre ++ [{ lastm with content := lastm.content ++ d }] := by
        simp [handleStreamEvent, hd, applyDeltaMessages, hmsgs, List.getLast?_concat, hrole]
      rw [ih _ pre { lastm with content := lastm.content ++ d } hstep hrole]
      simp [concatDeltas, String.append_assoc]

/-- C2 amended: from a non-empty transcript whose last message is not an
assistant message (for instance the optimistic user message), the first
non-empty delta seeds a new assistant message and subsequent deltas append, so
the trailing assistant content equals the in-order concatenation of the
deltas; on the genuinely empty transcript deltas are instead dropped. -/
theorem deltaFoldSeedsAndConcats (now target : String) (st : ChatState) (pre : List Message)
    (lastm : Message) (hmsgs : st.messages = pre ++ [lastm])
    (hrole : lastm.role ≠ Role.assistant) (d : String) (ds : List String) (hd : d ≠ "")
    (_hds : ∀ x ∈ ds, x ≠ "") :
    (foldEvents now target ((d :: ds).map ChatStreamEvent.assistant_delta) st).messages =
      st.messages ++
        [{ role := Role.assistant, content := concatDeltas (d :: ds), timestamp := now }] := by
  rw [List.map_cons, foldEvents_cons]
  have hstep : (handleStreamEvent now target (ChatStreamEvent.assistant_delta d) st).messages
      = st.messages ++ [{ role := Role.assistant, content := d, timestamp := now }] := by
    simp [handleStreamEvent, hd, applyDeltaMessages, hmsgs, List.getLast?_concat, hrole]
  rw [foldEvents_deltas_trailing_assistant now target ds _ st.messages
    { role := Role.assistant, content := d, timestamp := now } hstep rfl]
  simp [concatDeltas]

/-- C2 amended, witness: from the one-user-message transcript, folding the
non-empty deltas "Hi" and " there" yields that message followed by a single
assistant message whose content is "Hi there". -/
theorem deltaFoldSeedsAndConcats_witness :
    cexStateS2.messages = [] ++ [cexMessage] ∧ cexMessage.role ≠ Role.assistant ∧
    ("Hi" : String) ≠ "" ∧ (∀ x ∈ [" there"], x ≠ "") ∧
    (foldEvents "t1" "S1"
        (["Hi", " there"].map ChatStreamEvent.assistant_delta) cexStateS2).messages =
      cexStateS2.messages ++
        [{ role := Role.assistant, content := concatDeltas ["Hi", " there"], timestamp := "t1" }] := by
  exact ⟨rfl, by decide, by decide, by decide,
    deltaFoldSeedsAndConcats "t1" "S1" cexStateS2 [] cexMessage rfl (by decide) "Hi" [" there"]
      (by decide) (by decide)⟩

/-- Error events never touch the message list. -/
theorem handleStreamEvent_error_messages (now target e : String) (so : Option String)
    (st : ChatState) :
    (handleStreamEvent now target (ChatStreamEvent.error e so) st).messages = st.messages := by
  cases so with
  | none => rfl
  | some x => by_cases hx : trimString x ≠ "" <;> simp [handleStreamEvent, hx]

/-- Failed run fixture for C3: a transport failure thrown after the delta "Hi"
was received and folded. -/
def c3FailedRun : ChatState :=
  sendMessageWithStreaming "u0" "a0" "t1" "S1" "hello"
    (StreamOutcome.failed [ChatStreamEvent.assistant_delta "Hi"] "network error") emptyState

/-- C3 counterexample: a stream that yields the delta "Hi" and then throws. The
partial transcript right before the failure holds the optimistic user message
and the assistant placeholder grown to "Hi", yet the catch handler leaves an
empty message list — the placeholders and the received partial content are
rolled back even though content had been received, while the error is
surfaced. -/
theorem transportFailureDiscardsPartial_cex :
    (foldEvents "t1" "S1" [ChatStreamEvent.assistant_delta "Hi"]
        (optimisticState "u0" "a0" "hello" emptyState)).messages =
      [optimisticUser "u0" "hello", { optimisticAssistant "a0" with content := "Hi" }] ∧
    c3FailedRun.messages = [] ∧
    c3FailedRun.error = some "network error" ∧
    c3FailedRun.messages ≠
      [optimisticUser "u0" "hello", { optimisticAssistant "a0" with content := "Hi" }] := by
  refine ⟨rfl, rfl, rfl, ?_⟩
  intro h
  have h' : ([] : List Message) =
      [optimisticUser "u0" "hello", { optimisticAssistant "a0" with content := "Hi" }] := h
  exact List.noConfusion h'

/-- C3 amended: on a thrown transport failure the handler always removes the
last two messages, even when deltas were received — for any delta prefix the
resulting transcript is exactly the pre-turn transcript, with the error
surfaced; the partial transcript stays visible only when the failure arrives
as a server `error` event (in which case the user message and the partially
filled assistant placeholder remain). -/
theorem transportFailureAlwaysRollsBack (nowU nowA now target msg errMsg e : String)
    (ds : List String) (st : ChatState) :
    (sendMessageWithStreaming nowU nowA now target msg
        (StreamOutcome.failed (ds.map ChatStreamEvent.assistant_delta) errMsg) st).messages =
      st.messages ∧
    (sendMessageWithStreaming nowU nowA now target msg
        (StreamOutcome.failed (ds.map ChatStreamEvent.assistant_delta) errMsg) st).error =
      some errMsg ∧
    (sendMessageWithStreaming nowU nowA now target msg
        (StreamOutcome.ok
          (ds.map ChatStreamEvent.assistant_delta ++ [ChatStreamEvent.error e none])) st).messages =
      st.messages ++
        [optimisticUser nowU msg, { optimisticAssistant nowA with content := concatDeltas ds }] := by
  have hopt : (optimisticState nowU nowA msg st).messages =
      (st.messages ++ [optimisticUser nowU msg]) ++ [optimisticAssistant nowA] := by
    simp [optimisticState]
  have hfold : (foldEvents now target (ds.map ChatStreamEvent.assistant_delta)
        (optimisticState nowU nowA msg st)).messages =
      (st.messages ++ [optimisticUser nowU msg]) ++
        [{ optimisticAssistant nowA with content := concatDeltas ds }] := by
    have h := foldEvents_deltas_trailing_assistant now target ds
      (optimisticState nowU nowA msg st) (st.messages ++ [optimisticUser nowU msg])
      (optimisticAssistant nowA) hopt rfl
    simpa [optimisticAssistant] using h
  refine ⟨?_, rfl, ?_⟩
  · show (foldEvents now target (ds.map ChatStreamEvent.assistant_delta)
        (optimisticState nowU nowA msg st)).messages.dropLast.dropLast = st.messages
    rw [hfold]
    simp
  · show (foldEvents now target
        (ds.map ChatStreamEvent.assistant_delta ++ [ChatStreamEvent.error e none])
        (optimisticState nowU nowA msg st)).messages = _
    rw [foldEvents, List.foldl_append]
    rw [show List.foldl (fun s ev => handleStreamEvent now target ev s)
        (List.foldl (fun s ev => handleStreamEvent now target ev s)
          (optimisticState nowU nowA msg st) (ds.map ChatStreamEvent.assistant_delta))
        [ChatStreamEvent.error e none] =
      handleStreamEvent now target (ChatStreamEvent.error e none)
        (foldEvents now target (ds.map ChatStreamEvent.assistant_delta)
          (optimisticState nowU nowA msg st)) from rfl]
    rw [handleStreamEvent_error_messages, hfold]
    simp

/-- Stream events that write the message list (`assistant_delta` and `done`);
`status` and `error` events never touch the transcript. -/
def transcriptEvent : ChatStreamEvent → Bool
  | ChatStreamEvent.assistant_delta _ => true
  | ChatStreamEvent.done _ _ => true
  | _ => false

/-- Folding only non-transcript events (no delta, no done) preserves the
message list. -/
theorem foldEvents_messages_nonTranscript (now target : String)
    (events : List ChatStreamEvent) :
    ∀ (st : ChatState), (∀ e ∈ events, transcriptEvent e = false) →
      (foldEvents now target events st).messages = st.messages := by
  induction events with
  | nil => intro st _; rfl
  | cons e es ih =>
    intro st h
    rw [foldEvents_cons]
    rw [ih _ (fun x hx => h x (List.mem_cons_of_mem e hx))]
    have he : transcriptEvent e = false := h e (List.mem_cons_self e es)
    cases e with
    | assistant_delta d => simp [transcriptEvent] at he
    | done m s => simp [transcriptEvent] at he
    | status s => rfl
    | error e so => exact handleStreamEvent_error_messages now target e so st

/-- C4: when the optimistic placeholders have been appended and the stream then
fails with a transport error before any delta (or done) event arrived, the
handler restores exactly the pre-turn transcript and surfaces one error. -/
theorem zeroContentTransportFailureRestoresPreState (nowU nowA now target msg errMsg : String)
    (events : List ChatStreamEvent) (st : ChatState)
    (h : ∀ e ∈ events, transcriptEvent e = false) :
    (sendMessageWithStreaming nowU nowA now target msg
        (StreamOutcome.failed events errMsg) st).messages = st.messages ∧
    (sendMessageWithStreaming nowU nowA now target msg
        (StreamOutcome.failed events errMsg) st).error = some errMsg := by
  refine ⟨?_, rfl⟩
  show (foldEvents now target events
      (optimisticState nowU nowA msg st)).messages.dropLast.dropLast = st.messages
  rw [foldEvents_messages_nonTranscript now target events _ h]
  show (st.messages ++
      [optimisticUser nowU msg, optimisticAssistant nowA]).dropLast.dropLast = st.messages
  rw [show st.messages ++ [optimisticUser nowU msg, optimisticAssistant nowA] =
    (st.messages ++ [optimisticUser nowU msg]) ++ [optimisticAssistant nowA] by simp]
  simp

/-- C4 witness: starting from the empty transcript, a stream yielding only a
`status` event and then failing restores the exact empty transcript and
surfaces the transport error. -/
theorem zeroContentTransportFailureRestoresPreState_witness :
    (∀ e ∈ [ChatStreamEvent.status "running"], transcriptEvent e = false) ∧
    (sendMessageWithStreaming "u0" "a0" "t1" "S1" "hello"
        (StreamOutcome.failed [ChatStreamEvent.status "running"] "network error")
        emptyState).messages = emptyState.messages ∧
    (sendMessageWithStreaming "u0" "a0" "t1" "S1" "hello"
        (StreamOutcome.failed [ChatStreamEvent.status "running"] "network error")
        emptyState).error = some "network error" := by
  have h : ∀ e ∈ [ChatStreamEvent.status "running"], transcriptEvent e = false := by
    intro e he
    rw [List.mem_singleton] at he
    subst he
    rfl
  have hmain := zeroContentTransportFailureRestoresPreState "u0" "a0" "t1" "S1" "hello"
    "network error" [ChatStreamEvent.status "running"] emptyState h
  exact ⟨h, hmain.1, hmain.2⟩

/-- C6: an assistant message carrying calls `[A, B]` immediately followed by a
tool message carrying results for `A` and `B` — in either order — derives one
record per call, each paired by `tool_call_id`; with a result only for `A`,
the record for `B` carries no result (rendered as awaiting its result). -/
theorem toolCallResultPairingById (ma mt mt2 : Message) (A B : ToolCall) (rA rB : ToolResult)
    (hmaRole : ma.role = Role.assistant) (hmaCalls : ma.tool_calls = [A, B])
    (hmaRes : ma.tool_results = []) (hAB : A.id ≠ B.id)
    (hrA : rA.tool_call_id = A.id) (hrB : rB.tool_call_id = B.id)
    (hmtRole : mt.role = Role.tool)
    (hres : mt.tool_results = [rA, rB] ∨ mt.tool_results = [rB, rA])
    (hmt2Role : mt2.role = Role.tool) (hmt2Res : mt2.tool_results = [rA]) :
    renderedMessages [ma, mt] =
      [RenderNode.toolExec A (some rA) mt.timestamp,
        RenderNode.toolExec B (some rB) mt.timestamp] ∧
    renderedMessages [ma, mt2] =
      [RenderNode.toolExec A (some rA) mt2.timestamp,
        RenderNode.toolExec B none mt2.timestamp] := by
  have hBA : ¬(B.id = A.id) := fun hh => hAB hh.symm
  have hAB' : ¬(A.id = B.id) := hAB
  constructor
  · rcases hres with h | h <;>
      simp [renderedMessages, execCards, resultByCallID, hmaRole, hmaCalls, hmaRes, hmtRole,
        h, hrA, hrB, hBA, hAB']
  · simp [renderedMessages, execCards, resultByCallID, hmaRole, hmaCalls, hmaRes, hmt2Role,
      hmt2Res, hrA, hBA, hAB']

/-- Tool call fixture A. -/
def callA : ToolCall :=
  { id := "call-A", name := "alpha", input := [] }

/-- Tool call fixture B. -/
def callB : ToolCall :=
  { id := "call-B", name := "beta", input := [] }

/-- Result fixture answering call A. -/
def resA : ToolResult :=
  { tool_call_id := "call-A", content := "resultA", is_error := false }

/-- Result fixture answering call B. -/
def resB : ToolResult :=
  { tool_call_id := "call-B", content := "resultB", is_error := false }

/-- Assistant message fixture carrying the calls `[A, B]`. -/
def msgCalls : Message :=
  { role := Role.assistant, content := "", tool_calls := [callA, callB], timestamp := "ta" }

/-- Tool message fixture carrying the results in reversed order `[B, A]`. -/
def msgResultsRev : Message :=
  { role := Role.tool, content := "", tool_results := [resB, resA], timestamp := "tb" }

/-- Tool message fixture carrying only the result for A. -/
def msgResultsOnlyA : Message :=
  { role := Role.tool, content := "", tool_results := [resA], timestamp := "tc" }

/-- C6 witness: with the results arriving in reversed order, each call is
paired with its own result; when only A's result arrives, B's record awaits. -/
theorem toolCallResultPairingById_witness :
    msgCalls.role = Role.assistant ∧ msgCalls.tool_calls = [callA, callB] ∧
    callA.id ≠ callB.id ∧
    renderedMessages [msgCalls, msgResultsRev] =
      [RenderNode.toolExec callA (some resA) msgResultsRev.timestamp,
        RenderNode.toolExec callB (some resB) msgResultsRev.timestamp] ∧
    renderedMessages [msgCalls, msgResultsOnlyA] =
      [RenderNode.toolExec callA (some resA) msgResultsOnlyA.timestamp,
        RenderNode.toolExec callB none msgResultsOnlyA.timestamp] := by
  have h := toolCallResultPairingById msgCalls msgResultsRev msgResultsOnlyA callA callB
    resA resB rfl rfl rfl (by decide) rfl rfl rfl (Or.inr rfl) rfl rfl
  exact ⟨rfl, rfl, by decide, h.1, h.2⟩

/-- C7: the lookahead is bounded at depth 1 — for an assistant message with
tool calls followed by two consecutive tool messages with results, only the
first tool message is merged into the candidate set and consumed; each result
of the second renders as a standalone record with no call. -/
theorem boundedLookaheadDepthOne (ma t1 t2 : Message)
    (hmaRole : ma.role = Role.assistant) (hmaCalls : ma.tool_calls.length > 0)
    (ht1Role : t1.role = Role.tool) (ht1Res : t1.tool_results.length > 0)
    (ht2Role : t2.role = Role.tool) (ht2Res : t2.tool_results.length > 0) :
    renderedMessages [ma, t1, t2] =
      execCards ma.tool_calls (ma.tool_results ++ t1.tool_results) t1.timestamp ++
        t2.tool_results.map (fun r => RenderNode.standaloneResult r t2.timestamp) := by
  simp [renderedMessages, soloNodes, hmaRole, hmaCalls, ht1Role, ht1Res, ht2Role, ht2Res]

/-- Second standalone tool message fixture for the depth-1 witness. -/
def msgResultsB : Message :=
  { role := Role.tool, content := "", tool_results := [resB], timestamp := "td" }

/-- C7 witness: with two consecutive tool messages after the call-carrying
assistant message, only the first is merged; the second's result renders as a
standalone record. -/
theorem boundedLookaheadDepthOne_witness :
    msgCalls.role = Role.assistant ∧ msgCalls.tool_calls.length > 0 ∧
    msgResultsOnlyA.role = Role.tool ∧ msgResultsOnlyA.tool_results.length > 0 ∧
    msgResultsB.role = Role.tool ∧ msgResultsB.tool_results.length > 0 ∧
    renderedMessages [msgCalls, msgResultsOnlyA, msgResultsB] =
      execCards msgCalls.tool_calls (msgCalls.tool_results ++ msgResultsOnlyA.tool_results)
          msgResultsOnlyA.timestamp ++
        msgResultsB.tool_results.map
          (fun r => RenderNode.standaloneResult r msgResultsB.timestamp) := by
  exact ⟨rfl, by decide, rfl, by decide, rfl, by decide,
    boundedLookaheadDepthOne msgCalls msgResultsOnlyA msgResultsB rfl (by decide) rfl
      (by decide) rfl (by decide)⟩

/-- Inserting an identity puts it in the seen set. -/
theorem mem_addSeen_self (seen : List String) (idStr : String) : idStr ∈ addSeen seen idStr := by
  by_cases h : idStr ∈ seen <;> simp [addSeen, h]

/-- Insertion preserves existing members of the seen set. -/
theorem mem_addSeen_of_mem (seen : List String) (idStr x : String) (hx : x ∈ seen) :
    x ∈ addSeen seen idStr := by
  by_cases h : idStr ∈ seen <;> simp [addSeen, h, hx]

/-- One hydration step preserves existing members of the seen set. -/
theorem mem_hydrateResultStep_of_mem (m : Message) (r : ToolResult) (seen : List String)
    (x : String) (hx : x ∈ seen) : x ∈ hydrateResultStep m seen r := by
  unfold hydrateResultStep
  split
  · exact hx
  · split
    · exact hx
    · exact mem_addSeen_of_mem _ _ _ hx

/-- The hydration inner loop preserves existing members of the seen set. -/
theorem mem_hydrateResults_of_mem (m : Message) (rs : List ToolResult) :
    ∀ (seen : List String) (x : String), x ∈ seen → x ∈ hydrateResults m rs seen := by
  induction rs with
  | nil => intro seen x hx; exact hx
  | cons r rs ih => intro seen x hx; exact ih _ _ (mem_hydrateResultStep_of_mem m r seen x hx)

/-- The hydration pass preserves existing members of the seen set. -/
theorem mem_hydratePass_of_mem (ms : List Message) :
    ∀ (seen : List String) (x : String), x ∈ seen → x ∈ hydratePass ms seen := by
  induction ms with
  | nil => intro seen x hx; exact hx
  | cons m ms ih => intro seen x hx; exact ih _ _ (mem_hydrateResults_of_mem m m.tool_results seen x hx)

/-- A non-error result with a notification payload registers its identity. -/
theorem mem_hydrateResultStep_self (m : Message) (r : ToolResult) (seen : List String)
    (he : r.is_error = false) (hp : (readWebAppNotification r).isSome = true) :
    notificationID m r ∈ hydrateResultStep m seen r := by
  obtain ⟨p, hrw⟩ := Option.isSome_iff_exists.mp hp
  simp [hydrateResultStep, he, hrw, mem_addSeen_self]

/-- The hydration inner loop registers every non-error payload identity. -/
theorem hydrateResults_registers (m : Message) (rs : List ToolResult) :
    ∀ (seen : List String) (r : ToolResult), r ∈ rs → r.is_error = false →
      (readWebAppNotification r).isSome = true → notificationID m r ∈ hydrateResults m rs seen := by
  induction rs with
  | nil => intro seen r hr; cases hr
  | cons r0 rs ih =>
    intro seen r hr he hp
    rcases List.mem_cons.mp hr with h | h
    · subst h
      exact mem_hydrateResults_of_mem m rs _ _ (mem_hydrateResultStep_self m r seen he hp)
    · exact ih _ r h he hp

/-- The hydration pass registers every non-error payload identity of the list. -/
theorem hydratePass_registers (ms : List Message) :
    ∀ (seen : List String) (m : Message) (r : ToolResult), m ∈ ms → r ∈ m.tool_results →
      r.is_error = false → (readWebAppNotification r).isSome = true →
      notificationID m r ∈ hydratePass ms seen := by
  induction ms with
  | nil => intro seen m r hm; cases hm
  | cons m0 ms ih =>
    intro seen m r hm hr he hp
    rcases List.mem_cons.mp hm with h | h
    · subst h
      exact mem_hydratePass_of_mem ms _ _ (hydrateResults_registers m m.tool_results seen r hr he hp)
    · exact ih _ m r h hr he hp

/-- A live step whose candidate identity is already seen is a no-op. -/
theorem liveResultStep_skip (sid : Option String) (m : Message)
    (acc : List String × List NotificationEvent) (r : ToolResult)
    (h : r.is_error = false → (readWebAppNotification r).isSome = true →
      notificationID m r ∈ acc.1) :
    liveResultStep sid m acc r = acc := by
  cases he : r.is_error with
  | true => simp [liveResultStep, he]
  | false =>
    cases hrw : readWebAppNotification r with
    | none => simp [liveResultStep, he, hrw]
    | some p =>
      have hid := h he (by simp [hrw])
      simp [liveResultStep, he, hrw, hid]

/-- The live inner loop emits nothing when every candidate identity is seen. -/
theorem liveResults_skip (sid : Option String) (m : Message) (rs : List ToolResult) :
    ∀ (acc : List String × List NotificationEvent),
      (∀ r ∈ rs, r.is_error = false → (readWebAppNotification r).isSome = true →
        notificationID m r ∈ acc.1) →
      liveResults sid m rs acc = acc := by
  induction rs with
  | nil => intro acc _; rfl
  | cons r rs ih =>
    intro acc h
    have hstep : liveResultStep sid m acc r = acc :=
      liveResultStep_skip sid m acc r (h r (List.mem_cons_self r rs))
    show liveResults sid m rs (liveResultStep sid m acc r) = acc
    rw [hstep]
    exact ih acc (fun r' hr' => h r' (List.mem_cons_of_mem r hr'))

/-- The live outer loop emits nothing when every candidate identity is seen. -/
theorem livePassAux_skip (sid : Option String) (ms : List Message) :
    ∀ (acc : List String × List NotificationEvent),
      (∀ m ∈ ms, ∀ r ∈ m.tool_results, r.is_error = false →
        (readWebAppNotification r).isSome = true → notificationID m r ∈ acc.1) →
      livePassAux sid ms acc = acc := by
  induction ms with
  | nil => intro acc _; rfl
  | cons m ms ih =>
    intro acc h
    have hstep : liveResults sid m m.tool_results acc = acc :=
      liveResults_skip sid m m.tool_results acc (h m (List.mem_cons_self m ms))
    show livePassAux sid ms (liveResults sid m m.tool_results acc) = acc
    rw [hstep]
    exact ih acc (fun m' hm' => h m' (List.mem_cons_of_mem m hm'))

/-- Invariant of the live pass relative to the starting seen set `s0`: emitted
identities are pairwise distinct, every emitted identity is in the running seen
set, `s0` stays in the seen set, no emitted identity comes from `s0`, and the
seen set only holds `s0` members and emitted identities. -/
def LiveInv (s0 : List String) (acc : List String × List NotificationEvent) : Prop :=
  (acc.2.map NotificationEvent.id).Nodup ∧
  (∀ ev ∈ acc.2, ev.id ∈ acc.1) ∧
  (∀ x ∈ s0, x ∈ acc.1) ∧
  (∀ ev ∈ acc.2, ev.id ∉ s0) ∧
  (∀ x ∈ acc.1, x ∈ s0 ∨ x ∈ acc.2.map NotificationEvent.id)

/-- One live step preserves the live-pass invariant. -/
theorem liveResultStep_inv (s0 : List String) (sid : Option String) (m : Message)
    (acc : List String × List NotificationEvent) (r : ToolResult) (h : LiveInv s0 acc) :
    LiveInv s0 (liveResultStep sid m acc r) := by
  cases he : r.is_error with
  | true => simpa [liveResultStep, he] using h
  | false =>
    cases hrw : readWebAppNotification r with
    | none => simpa [liveResultStep, he, hrw] using h
    | some p =>
      by_cases hin : notificationID m r ∈ acc.1
      · simpa [liveResultStep, he, hrw, hin] using h
      · obtain ⟨h1, h2, h3, h4, h5⟩ := h
        have hnotev : notificationID m r ∉ acc.2.map NotificationEvent.id := by
          intro hc
          rcases List.mem_map.mp hc with ⟨ev, hev, hevid⟩
          exact hin (hevid ▸ h2 ev hev)
        have hstep : liveResultStep sid m acc r =
            (acc.1 ++ [notificationID m r], acc.2 ++ [mkNotificationEvent sid m r p]) := by
          simp [liveResultStep, he, hrw, hin]
        rw [hstep]
        refine ⟨?_, ?_, ?_, ?_, ?_⟩
        · rw [List.map_append, List.nodup_append]
          refine ⟨h1, List.nodup_singleton _, ?_⟩
          intro a ha hb
          have hb' : a = notificationID m r := by
            simpa [mkNotificationEvent] using hb
          subst hb'
          exact hnotev ha
        · intro ev hev
          rcases List.mem_append.mp hev with hl | hl
          · exact List.mem_append.mpr (Or.inl (h2 ev hl))
          · have : ev = mkNotificationEvent sid m r p := by simpa using hl
            subst this
            exact List.mem_append.mpr (Or.inr (List.mem_singleton.mpr rfl))
        · intro x hx
          exact List.mem_append.mpr (Or.inl (h3 x hx))
        · intro ev hev
          rcases List.mem_append.mp hev with hl | hl
          · exact h4 ev hl
          · have : ev = mkNotificationEvent sid m r p := by simpa using hl
            subst this
            intro hc
            exact hin (h3 _ hc)
        · intro x hx
          rcases List.mem_append.mp hx with hl | hl
          · rcases h5 x hl with h' | h'
            · exact Or.inl h'
            · right
              rw [List.map_append]
              exact List.mem_append.mpr (Or.inl h')
          · have : x = notificationID m r := by simpa using hl
            subst this
            right
            rw [List.map_append]
            refine List.mem_append.mpr (Or.inr ?_)
            simp [mkNotificationEvent]

/-- The live inner loop preserves the live-pass invariant. -/
theorem liveResults_inv (s0 : List String) (sid : Option String) (m : Message)
    (rs : List ToolResult) :
    ∀ (acc : List String × List NotificationEvent), LiveInv s0 acc →
      LiveInv s0 (liveResults sid m rs acc) := by
  induction rs with
  | nil => intro acc h; exact h
  | cons r rs ih => intro acc h; exact ih _ (liveResultStep_inv s0 sid m acc r h)

/-- The live outer loop preserves the live-pass invariant. -/
theorem livePassAux_inv (s0 : List String) (sid : Option String) (ms : List Message) :
    ∀ (acc : List String × List NotificationEvent), LiveInv s0 acc →
      LiveInv s0 (livePassAux sid ms acc) := by
  induction ms with
  | nil => intro acc h; exact h
  | cons m ms ih => intro acc h; exact ih _ (liveResults_inv s0 sid m m.tool_results acc h)

/-- One live step preserves existing members of the seen set. -/
theorem liveResultStep_seen_mono (sid : Option String) (m : Message)
    (acc : List String × List NotificationEvent) (r : ToolResult) (x : String)
    (hx : x ∈ acc.1) : x ∈ (liveResultStep sid m acc r).1 := by
  cases he : r.is_error with
  | true => simpa [liveResultStep, he] using hx
  | false =>
    cases hrw : readWebAppNotification r with
    | none => simpa [liveResultStep, he, hrw] using hx
    | some p =>
      by_cases hin : notificationID m r ∈ acc.1
      · simpa [liveResultStep, he, hrw, hin] using hx
      · simp [liveResultStep, he, hrw, hin, hx]

/-- The live inner loop preserves existing members of the seen set. -/
theorem liveResults_seen_mono (sid : Option String) (m : Message) (rs : List ToolResult) :
    ∀ (acc : List String × List NotificationEvent) (x : String), x ∈ acc.1 →
      x ∈ (liveResults sid m rs acc).1 := by
  induction rs with
  | nil => intro acc x hx; exact hx
  | cons r rs ih => intro acc x hx; exact ih _ _ (liveResultStep_seen_mono sid m acc r x hx)

/-- The live outer loop preserves existing members of the seen set. -/
theorem livePassAux_seen_mono (sid : Option String) (ms : List Message) :
    ∀ (acc : List String × List NotificationEvent) (x : String), x ∈ acc.1 →
      x ∈ (livePassAux sid ms acc).1 := by
  induction ms with
  | nil => intro acc x hx; exact hx
  | cons m ms ih => intro acc x hx; exact ih _ _ (liveResults_seen_mono sid m m.tool_results acc x hx)

/-- A live step on a non-error payload puts its identity into the seen set. -/
theorem liveResultStep_covers (sid : Option String) (m : Message)
    (acc : List String × List NotificationEvent) (r : ToolResult)
    (he : r.is_error = false) (hp : (readWebAppNotification r).isSome = true) :
    notificationID m r ∈ (liveResultStep sid m acc r).1 := by
  obtain ⟨p, hrw⟩ := Option.isSome_iff_exists.mp hp
  by_cases hin : notificationID m r ∈ acc.1
  · simp [liveResultStep, he, hrw, hin]
  · simp [liveResultStep, he, hrw, hin]

/-- The live inner loop covers every non-error payload identity. -/
theorem liveResults_covers (sid : Option String) (m : Message) (rs : List ToolResult) :
    ∀ (acc : List String × List NotificationEvent) (r : ToolResult), r ∈ rs →
      r.is_error = false → (readWebAppNotification r).isSome = true →
      notificationID m r ∈ (liveResults sid m rs acc).1 := by
  induction rs with
  | nil => intro acc r hr; cases hr
  | cons r0 rs ih =>
    intro acc r hr he hp
    rcases List.mem_cons.mp hr with h | h
    · subst h
      exact liveResults_seen_mono sid m rs _ _ (liveResultStep_covers sid m acc r he hp)
    · exact ih _ r h he hp

/-- The live outer loop covers every non-error payload identity of the list. -/
theorem livePassAux_covers (sid : Option String) (ms : List Message) :
    ∀ (acc : List String × List NotificationEvent) (m : Message) (r : ToolResult),
      m ∈ ms → r ∈ m.tool_results → r.is_error = false →
      (readWebAppNotification r).isSome = true →
      notificationID m r ∈ (livePassAux sid ms acc).1 := by
  induction ms with
  | nil => intro acc m r hm; cases hm
  | cons m0 ms ih =>
    intro acc m r hm hr he hp
    rcases List.mem_cons.mp hm with h | h
    · subst h
      exact livePassAux_seen_mono sid ms _ _
        (liveResults_covers sid m m.tool_results acc r hr he hp)
    · exact ih _ m r h hr he hp

/-- C8: per session the extractor emits each identity at most once — hydration
registers every payload identity while emitting nothing, so re-observing the
unchanged list afterwards emits zero events; in any live pass the emitted
identities are pairwise distinct and never come from the pre-existing seen
set, and a genuinely new identity is emitted exactly once. -/
theorem notificationDedupEmitsOncePerIdentity (sid : Option String) (msgs : List Message)
    (s0 : List String) (m : Message) (r : ToolResult) (hm : m ∈ msgs)
    (hr : r ∈ m.tool_results) (herr : r.is_error = false)
    (hp : (readWebAppNotification r).isSome = true) :
    notificationID m r ∈ hydratePass msgs s0 ∧
    (livePass sid msgs (hydratePass msgs s0)).2 = [] ∧
    ((livePass sid msgs s0).2.map NotificationEvent.id).Nodup ∧
    (∀ ev ∈ (livePass sid msgs s0).2, ev.id ∉ s0) ∧
    (notificationID m r ∉ s0 →
      ((livePass sid msgs s0).2.map NotificationEvent.id).count (notificationID m r) = 1) := by
  have hinv : LiveInv s0 (livePass sid msgs s0) := by
    refine livePassAux_inv s0 sid msgs (s0, []) ?_
    exact ⟨List.nodup_nil, fun ev hev => absurd hev (List.not_mem_nil ev),
      fun x hx => hx, fun ev hev => absurd hev (List.not_mem_nil ev),
      fun x hx => Or.inl hx⟩
  obtain ⟨h1, _h2, _h3, h4, h5⟩ := hinv
  refine ⟨?_, ?_, h1, h4, ?_⟩
  · exact hydratePass_registers msgs s0 m r hm hr herr hp
  · have hall : ∀ m' ∈ msgs, ∀ r' ∈ m'.tool_results, r'.is_error = false →
        (readWebAppNotification r').isSome = true →
        notificationID m' r' ∈ (hydratePass msgs s0, ([] : List NotificationEvent)).1 :=
      fun m' hm' r' hr' he' hp' => hydratePass_registers msgs s0 m' r' hm' hr' he' hp'
    have hskip := livePassAux_skip sid msgs (hydratePass msgs s0, []) hall
    show (livePassAux sid msgs (hydratePass msgs s0, [])).2 = []
    rw [hskip]
  · intro hnot
    have hcov : notificationID m r ∈ (livePass sid msgs s0).1 :=
      livePassAux_covers sid msgs (s0, []) m r hm hr herr hp
    have hmem : notificationID m r ∈ (livePass sid msgs s0).2.map NotificationEvent.id := by
      rcases h5 _ hcov with h | h
      · exact absurd h hnot
      · exact h
    have hle := List.nodup_iff_count_le_one.mp h1 (notificationID m r)
    have hge := List.count_pos_iff.mpr hmem
    omega

/-- Metadata fixture carrying a webapp notification payload with a non-empty
message. -/
def notifMeta : MetaVal :=
  MetaVal.obj [("webapp_notification", MetaVal.obj [("message", MetaVal.str "Build finished")])]

/-- Non-error tool result fixture carrying the notification payload. -/
def notifResult : ToolResult :=
  { tool_call_id := "call-N", content := "ok", is_error := false, metadata := some notifMeta }

/-- Tool message fixture holding the notification result. -/
def notifMessage : Message :=
  { role := Role.tool, content := "", tool_results := [notifResult], timestamp := "t9" }

/-- C8 witness: for the one-payload message list, hydration registers the
identity, re-observation after hydration emits zero events, and a live pass
from the empty seen set emits the identity exactly once. -/
theorem notificationDedupEmitsOncePerIdentity_witness :
    notifMessage ∈ [notifMessage] ∧ notifResult ∈ notifMessage.tool_results ∧
    notifResult.is_error = false ∧ (readWebAppNotification notifResult).isSome = true ∧
    notificationID notifMessage notifResult ∈ hydratePass [notifMessage] [] ∧
    (livePass (some "S1") [notifMessage] (hydratePass [notifMessage] [])).2 = [] ∧
    ((livePass (some "S1") [notifMessage] []).2.map NotificationEvent.id).count
      (notificationID notifMessage notifResult) = 1 := by
  have h := notificationDedupEmitsOncePerIdentity (some "S1") [notifMessage] [] notifMessage
    notifResult (List.mem_singleton.mpr rfl) (List.mem_singleton.mpr rfl) rfl rfl
  exact ⟨List.mem_singleton.mpr rfl, List.mem_singleton.mpr rfl, rfl, rfl, h.1, h.2.1,
    h.2.2.2.2 (List.not_mem_nil _)⟩

/-- The hydration step reads only the message's timestamp. -/
theorem hydrateResultStep_timestamp_congr (m m' : Message) (h : m.timestamp = m'.timestamp)
    (seen : List String) (r : ToolResult) :
    hydrateResultStep m seen r = hydrateResultStep m' seen r := by
  simp [hydrateResultStep, notificationID, h]

/-- The hydration inner loop reads only the message's timestamp. -/
theorem hydrateResults_timestamp_congr (m m' : Message) (h : m.timestamp = m'.timestamp)
    (rs : List ToolResult) :
    ∀ seen, hydrateResults m rs seen = hydrateResults m' rs seen := by
  induction rs with
  | nil => intro seen; rfl
  | cons r rs ih =>
    intro seen
    show hydrateResults m rs (hydrateResultStep m seen r) =
      hydrateResults m' rs (hydrateResultStep m' seen r)
    rw [hydrateResultStep_timestamp_congr m m' h seen r, ih]

/-- The live step reads only the message's timestamp. -/
theorem liveResultStep_timestamp_congr (sid : Option String) (m m' : Message)
    (h : m.timestamp = m'.timestamp) (acc : List String × List NotificationEvent)
    (r : ToolResult) :
    liveResultStep sid m acc r = liveResultStep sid m' acc r := by
  simp [liveResultStep, notificationID, mkNotificationEvent, h]

/-- The live inner loop reads only the message's timestamp. -/
theorem liveResults_timestamp_congr (sid : Option String) (m m' : Message)
    (h : m.timestamp = m'.timestamp) (rs : List ToolResult) :
    ∀ acc, liveResults sid m rs acc = liveResults sid m' rs acc := by
  induction rs with
  | nil => intro acc; rfl
  | cons r rs ih =>
    intro acc
    show liveResults sid m rs (liveResultStep sid m acc r) =
      liveResults sid m' rs (liveResultStep sid m' acc r)
    rw [liveResultStep_timestamp_congr sid m m' h acc r, ih]

/-- Removing error results does not change the hydration inner loop: the step
for an error result is already a no-op. -/
theorem hydrateResults_filter_errors (m : Message) (rs : List ToolResult) :
    ∀ seen, hydrateResults m (rs.filter (fun r => !r.is_error)) seen = hydrateResults m rs seen := by
  induction rs with
  | nil => intro seen; rfl
  | cons r rs ih =>
    intro seen
    cases he : r.is_error with
    | true =>
      have hstep : hydrateResultStep m seen r = seen := by simp [hydrateResultStep, he]
      rw [List.filter_cons]
      simp only [he, Bool.not_true, Bool.false_eq_true, if_false]
      show hydrateResults m (rs.filter (fun r => !r.is_error)) seen =
        hydrateResults m rs (hydrateResultStep m seen r)
      rw [hstep, ih]
    | false =>
      rw [List.filter_cons]
      simp only [he, Bool.not_false, if_true]
      show hydrateResults m (rs.filter (fun r => !r.is_error)) (hydrateResultStep m seen r) =
        hydrateResults m rs (hydrateResultStep m seen r)
      exact ih _

/-- Removing error results does not change the live inner loop: the step for an
error result is already a no-op. -/
theorem liveResults_filter_errors (sid : Option String) (m : Message) (rs : List ToolResult) :
    ∀ acc, liveResults sid m (rs.filter (fun r => !r.is_error)) acc = liveResults sid m rs acc := by
  induction rs with
  | nil => intro acc; rfl
  | cons r rs ih =>
    intro acc
    cases he : r.is_error with
    | true =>
      have hstep : liveResultStep sid m acc r = acc := by simp [liveResultStep, he]
      rw [List.filter_cons]
      simp only [he, Bool.not_true, Bool.false_eq_true, if_false]
      show liveResults sid m (rs.filter (fun r => !r.is_error)) acc =
        liveResults sid m rs (liveResultStep sid m acc r)
      rw [hstep, ih]
    | false =>
      rw [List.filter_cons]
      simp only [he, Bool.not_false, if_true]
      show liveResults sid m (rs.filter (fun r => !r.is_error)) (liveResultStep sid m acc r) =
        liveResults sid m rs (liveResultStep sid m acc r)
      exact ih _

/-- C9: a tool result whose `is_error` flag is true never contributes to
notification extraction — both the hydration pass and the live pass compute
exactly the same seen set and the same emitted events on the message list with
every error result removed, even when such a result carries a
`webapp_notification` payload with a non-empty message. -/
theorem errorResultsNeverContribute (sid : Option String) (msgs : List Message)
    (s0 : List String) :
    hydratePass (stripErrorResults msgs) s0 = hydratePass msgs s0 ∧
    livePass sid (stripErrorResults msgs) s0 = livePass sid msgs s0 := by
  have hyd : ∀ (ms : List Message) (seen : List String),
      hydratePass (stripErrorResults ms) seen = hydratePass ms seen := by
    intro ms
    induction ms with
    | nil => intro seen; rfl
    | cons m ms ih =>
      intro seen
      show hydratePass (stripErrorResults ms)
          (hydrateResults { m with tool_results := m.tool_results.filter (fun r => !r.is_error) }
            (m.tool_results.filter (fun r => !r.is_error)) seen) =
        hydratePass ms (hydrateResults m m.tool_results seen)
      rw [hydrateResults_timestamp_congr
        { m with tool_results := m.tool_results.filter (fun r => !r.is_error) } m rfl
        (m.tool_results.filter (fun r => !r.is_error)) seen]
      rw [hydrateResults_filter_errors m m.tool_results seen]
      exact ih _
  have liv : ∀ (ms : List Message) (acc : List String × List NotificationEvent),
      livePassAux sid (stripErrorResults ms) acc = livePassAux sid ms acc := by
    intro ms
    induction ms with
    | nil => intro acc; rfl
    | cons m ms ih =>
      intro acc
      show livePassAux sid (stripErrorResults ms)
          (liveResults sid { m with tool_results := m.tool_results.filter (fun r => !r.is_error) }
            (m.tool_results.filter (fun r => !r.is_error)) acc) =
        livePassAux sid ms (liveResults sid m m.tool_results acc)
      rw [liveResults_timestamp_congr sid
        { m with tool_results := m.tool_results.filter (fun r => !r.is_error) } m rfl
        (m.tool_results.filter (fun r => !r.is_error)) acc]
      rw [liveResults_filter_errors sid m m.tool_results acc]
      exact ih _
  exact ⟨hyd msgs s0, liv msgs (s0, [])⟩

end Caesar
